import Mathlib

/-!
Verification of the api-core validation / pagination / error-formatting library.

The repository is a NestJS adapter library.  The definitions below are shallow
embeddings of its pure logic:

* the two Zod validation pipes (src/pipes/zod-validation.pipe.ts and
  src/nestjs/pipes/zod-validation.pipe.ts), modelled over an abstract schema
  given as a function into Except;
* the two exception filters (src/http/filters/http-exception.filter.ts and the
  AllExceptionsFilter), modelled as pure functions from the thrown exception,
  the NODE_ENV string, the request data and the current timestamp to the HTTP
  reply they produce;
* the pagination helpers (src/pagination/pagination.helpers.ts);
* the coercing pagination query schema (paginationQueryCoerceSchema);
* the slug helpers (slugify, generateUniqueSlug, isValidSlug) and slugSchema.

JavaScript runtime builtins that the code calls (Number(), String.trim,
String.normalize('NFD'), template-literal rendering of numbers) are modelled
explicitly; each model carries a comment describing its scope.  Machine
numbers are modelled as Nat/Int: every quantity involved is an integer in the
exact range of IEEE doubles for all inputs under consideration.
-/

deriving instance DecidableEq for Except

namespace ApiCore

/-! ### JavaScript string values: message field of an HTTP exception body

NestJS error bodies carry `message: string | string[]`. -/

inductive JsMessage where
  | str (s : String)
  | strList (l : List String)
deriving DecidableEq

/-! ### Exception model

An `HttpException` knows its status and the response it was constructed with:
either a plain string or an object with optional `message` and `error` fields
(the only fields either filter reads). -/

inductive HttpExceptionResponse where
  | str (s : String)
  | obj (message : Option JsMessage) (error : Option String)
deriving DecidableEq

structure HttpExceptionModel where
  status : Nat
  response : HttpExceptionResponse
deriving DecidableEq

/-- A thrown value as seen by the AllExceptionsFilter: either a recognized
HttpException, or anything else (an unclassified error).  For an unclassified
error we record its JavaScript `message` property so the claims about it can
be stated; the filter itself never reads that property. -/
inductive ThrownException where
  | http (e : HttpExceptionModel)
  | unclassified (message : String)
deriving DecidableEq

structure RequestInfo where
  url : String
  method : String
deriving DecidableEq

/-- The error envelope both filters build (ErrorResponse in
src/http/api-response.type.ts). -/
structure ErrorResponseEnvelope where
  statusCode : Nat
  message : JsMessage
  error : String
  timestamp : String
  path : String
  method : String
deriving DecidableEq

/-- The observable effect of `response.status(status).json(errorResponse)`. -/
structure FilterReply where
  responseStatus : Nat
  body : ErrorResponseEnvelope
deriving DecidableEq

/-- Embedding of the private `getErrorName` of both filters: map status codes
to canonical names, unknown codes to "Error". -/
def getErrorName (status : Nat) : String :=
  if status = 400 then "Bad Request"
  else if status = 401 then "Unauthorized"
  else if status = 403 then "Forbidden"
  else if status = 404 then "Not Found"
  else if status = 409 then "Conflict"
  else if status = 422 then "Unprocessable Entity"
  else if status = 429 then "Too Many Requests"
  else if status = 500 then "Internal Server Error"
  else if status = 502 then "Bad Gateway"
  else if status = 503 then "Service Unavailable"
  else "Error"

/-- JavaScript truthiness of the `message` field read by
`if (responseObj.message)`: absent and the empty string are falsy; a
non-empty string and any array are truthy. -/
def jsTruthyMessage : Option JsMessage → Bool
  | none => false
  | some (.str s) => decide (s ≠ "")
  | some (.strList _) => true

/-- Message extraction of HttpExceptionFilter.catch: start from the default
"Internal server error", take the string form of the exception response, or a
truthy `message` field of an object response. -/
def extractHttpMessage : HttpExceptionResponse → JsMessage
  | .str s => .str s
  | .obj none _ => .str "Internal server error"
  | .obj (some m) _ =>
      if jsTruthyMessage (some m) then m else .str "Internal server error"

/-- Error-name extraction of HttpExceptionFilter.catch: default
`getErrorName status`, overridden by a truthy string `error` field
(`if (responseObj.error && typeof responseObj.error === 'string')`). -/
def extractHttpError (status : Nat) : HttpExceptionResponse → String
  | .str _ => getErrorName status
  | .obj _ none => getErrorName status
  | .obj _ (some e) => if e ≠ "" then e else getErrorName status

/-- Embedding of HttpExceptionFilter.catch
(src/http/filters/http-exception.filter.ts).  `nodeEnv` is the value of the
NODE_ENV environment variable and `timestamp` the value of
`new Date().toISOString()`.  The server-side logging performed by the filter
has no effect on the reply and is not modelled. -/
def httpExceptionFilterCatch (nodeEnv : String) (exc : HttpExceptionModel)
    (req : RequestInfo) (timestamp : String) : FilterReply :=
  let status := exc.status
  let message := extractHttpMessage exc.response
  let error := extractHttpError status exc.response
  let errorResponse : ErrorResponseEnvelope :=
    { statusCode := status, message := message, error := error,
      timestamp := timestamp, path := req.url, method := req.method }
  let final :=
    if nodeEnv = "production" ∧ 500 ≤ status then
      { errorResponse with message := .str "Internal server error",
                           error := "Internal Server Error" }
    else errorResponse
  { responseStatus := status, body := final }

/-- Status determination of AllExceptionsFilter.catch: an HttpException
carries its own status, everything else becomes 500. -/
def allExceptionsStatus : ThrownException → Nat
  | .http e => e.status
  | .unclassified _ => 500

/-- Message extraction of AllExceptionsFilter.catch.  It starts from
"Internal server error"; for an HttpException it takes a string response
directly, and for an object response it applies
`message = (responseObj.message as string) ?? message` (nullish coalescing,
so even an empty string passes through).  For an unclassified error the
default is never replaced. -/
def allExceptionsMessage : ThrownException → JsMessage
  | .unclassified _ => .str "Internal server error"
  | .http e =>
      match e.response with
      | .str s => .str s
      | .obj m _ => m.getD (.str "Internal server error")

/-- Embedding of AllExceptionsFilter.catch.  The `errorDetails` record the
source builds in non-production is never used in the response it sends, so it
does not appear in the reply.  Logging is not modelled. -/
def allExceptionsFilterCatch (nodeEnv : String) (exc : ThrownException)
    (req : RequestInfo) (timestamp : String) : FilterReply :=
  let status := allExceptionsStatus exc
  let message := allExceptionsMessage exc
  let errorResponse : ErrorResponseEnvelope :=
    { statusCode := status,
      error := getErrorName status,
      message := if nodeEnv = "production" then .str "Internal server error"
                 else message,
      timestamp := timestamp, path := req.url, method := req.method }
  { responseStatus := status, body := errorResponse }

/-! ### Pagination helpers (src/pagination/pagination.helpers.ts) -/

structure PaginationParams where
  page : Nat
  limit : Nat
deriving DecidableEq

structure PaginationMeta where
  page : Nat
  limit : Nat
  total : Nat
  totalPages : Nat
  hasNextPage : Bool
  hasPreviousPage : Bool
deriving DecidableEq

/-- Embedding of calculatePaginationMeta.  The source computes
`Math.ceil(total / limit)`; on natural numbers with limit > 0 this is
`(total + limit - 1) / limit` (ceiling division). -/
def calculatePaginationMeta (params : PaginationParams) (total : Nat) :
    PaginationMeta :=
  let totalPages := (total + params.limit - 1) / params.limit
  { page := params.page, limit := params.limit, total := total,
    totalPages := totalPages,
    hasNextPage := decide (params.page < totalPages),
    hasPreviousPage := decide (params.page > 1) }

/-! ### The two Zod validation pipes

A schema is embedded as a function from the raw value to either the parsed
value or a non-empty list of issues; each issue carries the path and the
human-readable message the pipes read. -/

structure ZodIssueLite where
  path : List String
  message : String
deriving DecidableEq

/-- Body of the BadRequestException a pipe throws.  `errors` is the list of
per-issue (dot-joined path, message) pairs when the pipe includes them. -/
structure BadRequestBody where
  statusCode : Nat
  message : String
  error : String
  errors : List (String × String)
deriving DecidableEq

/-- Outcome of a pipe transform: the validated value, or a thrown
BadRequestException with the given body. -/
inductive PipeResult (α : Type) where
  | value (v : α)
  | badRequest (body : BadRequestBody)
deriving DecidableEq

/-- Embedding of ZodValidationPipe.transform from
src/pipes/zod-validation.pipe.ts.  On failure it logs the full diagnostic
server-side (not modelled: the log is not part of the reply) and throws
`new BadRequestException('Validation error')`, whose NestJS body is
statusCode 400, message "Validation error", error "Bad Request", with no
per-issue data. -/
def zodValidationPipeTransform {α β : Type}
    (schema : α → Except (List ZodIssueLite) β) (value : α) : PipeResult β :=
  match schema value with
  | .ok v => .value v
  | .error _issues =>
      .badRequest { statusCode := 400, message := "Validation error",
                    error := "Bad Request", errors := [] }

/-- Embedding of ZodValidationPipe.transform from
src/nestjs/pipes/zod-validation.pipe.ts.  On failure it throws a
BadRequestException whose body carries message "Validation failed", the
string produced by the external zod-validation-error formatter (abstracted
as `fromErrorText`), the per-issue path/message pairs, and statusCode 400. -/
def nestZodValidationPipeTransform {α β : Type}
    (fromErrorText : List ZodIssueLite → String)
    (schema : α → Except (List ZodIssueLite) β) (value : α) : PipeResult β :=
  match schema value with
  | .ok v => .value v
  | .error issues =>
      .badRequest { statusCode := 400, message := "Validation failed",
                    error := fromErrorText issues,
                    errors := issues.map
                      (fun i => (String.intercalate "." i.path, i.message)) }

/-- A small concrete schema used as a test input for the pipe theorems: a
positive-number check in the style of z.number().positive(). -/
def samplePositiveSchema : Int → Except (List ZodIssueLite) Int := fun n =>
  if 0 < n then .ok n
  else .error [{ path := ["page"], message := "Number must be greater than 0" }]

/-! ### JavaScript string builtins used by the schemas and slug helpers -/

/-- Whitespace class of the JavaScript String.prototype.trim builtin,
restricted to the common ASCII whitespace characters. -/
def jsIsWhitespace (c : Char) : Bool :=
  c = ' ' ∨ c = '\t' ∨ c = '\n' ∨ c = '\r' ∨ c = '\x0b' ∨ c = '\x0c'

/-- List-level trim: drop whitespace from the front, then from the back. -/
def jsTrimCore (l : List Char) : List Char :=
  ((l.dropWhile jsIsWhitespace).reverse.dropWhile jsIsWhitespace).reverse

/-- Model of the JavaScript String.prototype.trim builtin (used by
z.string().trim() and by slugify). -/
def jsTrim (s : String) : String := (jsTrimCore s.data).asString

/-- Decimal value of a list of digit characters (48 is the code of the
character zero). -/
def digitsVal (l : List Char) : Nat :=
  l.foldl (fun a c => 10 * a + (c.toNat - 48)) 0

/-- Model of the JavaScript Number() coercion applied by z.coerce.number,
restricted to integer-valued inputs: the empty string coerces to 0, a string
of decimal digits (optionally with a leading minus sign) to its value, and
every other string to NaN or a non-integer — both of which the schema's
subsequent .int() check rejects, so they are represented as none. -/
def jsCharsToInt : List Char → Option Int
  | [] => some 0
  | c :: rest =>
      if c = '-' then
        if rest ≠ [] ∧ rest.all (fun d => d.isDigit) then
          some (-(digitsVal rest : Int))
        else none
      else if (c :: rest).all (fun d => d.isDigit) then
        some ((digitsVal (c :: rest) : Int))
      else none

def jsStringToInt (s : String) : Option Int := jsCharsToInt s.data

/-! ### The coercing pagination query schema (paginationQueryCoerceSchema)

Query-string values are strings; for generality an input field may also be a
number already (re-validation of a parsed value).  JavaScript numbers are
restricted to integers: z.coerce.number().int() rejects every non-integer,
so only the integer-valued inputs are observable past the schema. -/

inductive QueryValue where
  | str (s : String)
  | num (n : Int)
deriving DecidableEq

/-- The raw query object handed to paginationQueryCoerceSchema.parse; a field
is none when the key is absent. -/
structure QueryInput where
  page : Option QueryValue
  limit : Option QueryValue
  search : Option QueryValue
  sortBy : Option QueryValue
  sortOrder : Option QueryValue
deriving DecidableEq

/-- The empty query object. -/
def emptyQuery : QueryInput :=
  { page := none, limit := none, search := none, sortBy := none,
    sortOrder := none }

/-- Kind of a validation issue reported by the schema model. -/
inductive ZodFail where
  | invalidType
  | notInteger
  | tooSmall
  | tooBig
  | invalidEnum
deriving DecidableEq

/-- Coercion step of z.coerce.number(): numbers pass through, strings go
through the Number() builtin model. -/
def coerceToInt : QueryValue → Option Int
  | .num n => some n
  | .str s => jsStringToInt s

/-- The check chain .int().positive()[.max maxVal] applied to the result of
the coercion: a failed coercion is a non-integer, then positivity, then the
optional maximum. -/
def checkPositiveInt (path : String) (maxVal : Option Int) :
    Option Int → Except (List (String × ZodFail)) Int
  | none => .error [(path, .notInteger)]
  | some n =>
      if n ≤ 0 then .error [(path, .tooSmall)]
      else
        match maxVal with
        | none => .ok n
        | some m => if m < n then .error [(path, .tooBig)] else .ok n

/-- Field parser for z.coerce.number().int().positive()[.max maxVal]
[.default defaultVal]: an absent field takes the default; a present field is
coerced, then checked to be a positive integer and at most the maximum. -/
def parseCoercedPositiveInt (path : String) (maxVal : Option Int)
    (defaultVal : Int) :
    Option QueryValue → Except (List (String × ZodFail)) Int
  | none => .ok defaultVal
  | some v => checkPositiveInt path maxVal (coerceToInt v)

/-- Field parser for z.string().trim().optional() (the `search` field). -/
def parseOptionalTrimmedString (path : String) :
    Option QueryValue → Except (List (String × ZodFail)) (Option String)
  | none => .ok none
  | some (.str s) => .ok (some (jsTrim s))
  | some (.num _) => .error [(path, .invalidType)]

/-- Field parser for z.string().optional() (the `sortBy` field). -/
def parseOptionalPlainString (path : String) :
    Option QueryValue → Except (List (String × ZodFail)) (Option String)
  | none => .ok none
  | some (.str s) => .ok (some s)
  | some (.num _) => .error [(path, .invalidType)]

/-- Field parser for z.enum(['ASC', 'DESC']).optional().default('DESC'). -/
def parseSortOrder :
    Option QueryValue → Except (List (String × ZodFail)) String
  | none => .ok "DESC"
  | some (.str s) =>
      if s = "ASC" ∨ s = "DESC" then .ok s
      else .error [("sortOrder", .invalidEnum)]
  | some (.num _) => .error [("sortOrder", .invalidType)]

/-- Output type of paginationQueryCoerceSchema (PaginationQueryCoerce). -/
structure PaginationQueryCoerce where
  page : Int
  limit : Int
  search : Option String
  sortBy : Option String
  sortOrder : String
deriving DecidableEq

/-- Issues carried by a failed field parse (empty for a success). -/
def issuesOf {α : Type} :
    Except (List (String × ZodFail)) α → List (String × ZodFail)
  | .ok _ => []
  | .error e => e

/-- Embedding of paginationQueryCoerceSchema.parse: every field is parsed;
if all succeed the parsed object is returned, otherwise all issues are
reported together in field order (Zod reports every failing field). -/
def paginationQueryCoerceParse (q : QueryInput) :
    Except (List (String × ZodFail)) PaginationQueryCoerce :=
  match parseCoercedPositiveInt "page" none 1 q.page,
        parseCoercedPositiveInt "limit" (some 100) 10 q.limit,
        parseOptionalTrimmedString "search" q.search,
        parseOptionalPlainString "sortBy" q.sortBy,
        parseSortOrder q.sortOrder with
  | .ok p, .ok l, .ok se, .ok sb, .ok so =>
      .ok { page := p, limit := l, search := se, sortBy := sb,
            sortOrder := so }
  | rp, rl, rs, rb, ro =>
      .error (issuesOf rp ++ issuesOf rl ++ issuesOf rs ++ issuesOf rb ++
              issuesOf ro)

/-- Re-embedding of a validated output as a raw query object, for the
idempotence claim: numbers stay numbers, strings stay strings, absent
optionals stay absent. -/
def queryOfOutput (r : PaginationQueryCoerce) : QueryInput :=
  { page := some (.num r.page), limit := some (.num r.limit),
    search := r.search.map .str, sortBy := r.sortBy.map .str,
    sortOrder := some (.str r.sortOrder) }

/-! ### Slug helpers (slugify, generateUniqueSlug, isValidSlug, slugSchema) -/

/-- Model of the Unicode NFD decomposition performed by the JavaScript
String.prototype.normalize('NFD') builtin, restricted to the precomposed
Latin letters of the Latin-1 block; every other character decomposes to
itself.  0x300 is the combining grave accent, 0x301 the combining acute,
0x302 the combining circumflex, 0x303 the combining tilde, 0x308 the
combining diaeresis and 0x327 the combining cedilla. -/
def nfdChar (c : Char) : List Char :=
  if c = 'à' then ['a', Char.ofNat 0x300]
  else if c = 'á' then ['a', Char.ofNat 0x301]
  else if c = 'â' then ['a', Char.ofNat 0x302]
  else if c = 'ã' then ['a', Char.ofNat 0x303]
  else if c = 'ä' then ['a', Char.ofNat 0x308]
  else if c = 'è' then ['e', Char.ofNat 0x300]
  else if c = 'é' then ['e', Char.ofNat 0x301]
  else if c = 'ê' then ['e', Char.ofNat 0x302]
  else if c = 'ë' then ['e', Char.ofNat 0x308]
  else if c = 'ì' then ['i', Char.ofNat 0x300]
  else if c = 'í' then ['i', Char.ofNat 0x301]
  else if c = 'î' then ['i', Char.ofNat 0x302]
  else if c = 'ï' then ['i', Char.ofNat 0x308]
  else if c = 'ò' then ['o', Char.ofNat 0x300]
  else if c = 'ó' then ['o', Char.ofNat 0x301]
  else if c = 'ô' then ['o', Char.ofNat 0x302]
  else if c = 'õ' then ['o', Char.ofNat 0x303]
  else if c = 'ö' then ['o', Char.ofNat 0x308]
  else if c = 'ù' then ['u', Char.ofNat 0x300]
  else if c = 'ú' then ['u', Char.ofNat 0x301]
  else if c = 'û' then ['u', Char.ofNat 0x302]
  else if c = 'ü' then ['u', Char.ofNat 0x308]
  else if c = 'ñ' then ['n', Char.ofNat 0x303]
  else if c = 'ç' then ['c', Char.ofNat 0x327]
  else if c = 'À' then ['A', Char.ofNat 0x300]
  else if c = 'Á' then ['A', Char.ofNat 0x301]
  else if c = 'Â' then ['A', Char.ofNat 0x302]
  else if c = 'Ã' then ['A', Char.ofNat 0x303]
  else if c = 'Ä' then ['A', Char.ofNat 0x308]
  else if c = 'È' then ['E', Char.ofNat 0x300]
  else if c = 'É' then ['E', Char.ofNat 0x301]
  else if c = 'Ê' then ['E', Char.ofNat 0x302]
  else if c = 'Ë' then ['E', Char.ofNat 0x308]
  else if c = 'Ì' then ['I', Char.ofNat 0x300]
  else if c = 'Í' then ['I', Char.ofNat 0x301]
  else if c = 'Î' then ['I', Char.ofNat 0x302]
  else if c = 'Ï' then ['I', Char.ofNat 0x308]
  else if c = 'Ò' then ['O', Char.ofNat 0x300]
  else if c = 'Ó' then ['O', Char.ofNat 0x301]
  else if c = 'Ô' then ['O', Char.ofNat 0x302]
  else if c = 'Õ' then ['O', Char.ofNat 0x303]
  else if c = 'Ö' then ['O', Char.ofNat 0x308]
  else if c = 'Ù' then ['U', Char.ofNat 0x300]
  else if c = 'Ú' then ['U', Char.ofNat 0x301]
  else if c = 'Û' then ['U', Char.ofNat 0x302]
  else if c = 'Ü' then ['U', Char.ofNat 0x308]
  else if c = 'Ñ' then ['N', Char.ofNat 0x303]
  else if c = 'Ç' then ['C', Char.ofNat 0x327]
  else [c]

/-- The combining diacritical marks block removed by
.replace of the 0x300 to 0x36f range. -/
def isCombiningMark (c : Char) : Bool :=
  decide (0x300 ≤ c.toNat ∧ c.toNat ≤ 0x36f)

/-- Lowercase ASCII letters and digits: the character class [a-z0-9] of the
slug regexes. -/
def isLowerAlnum (c : Char) : Bool :=
  ('a' ≤ c ∧ c ≤ 'z') ∨ ('0' ≤ c ∧ c ≤ '9')

/-- Model of .replace of the pattern matching one or more characters outside
[a-z0-9] (globally) with a single hyphen.  The flag records whether the
scanner is inside such a run (in which case further run characters emit
nothing). -/
def replaceRunsGo : Bool → List Char → List Char
  | _, [] => []
  | inRun, c :: rest =>
      if isLowerAlnum c then c :: replaceRunsGo false rest
      else if inRun then replaceRunsGo true rest
      else '-' :: replaceRunsGo true rest

/-- Replace every maximal run of non-alphanumeric characters by one hyphen. -/
def replaceRuns (l : List Char) : List Char := replaceRunsGo false l

/-- Model of .replace of the anchored leading/trailing hyphen-run pattern
with the empty string: drop hyphens from the front and from the back. -/
def stripEdgeHyphens (l : List Char) : List Char :=
  ((l.dropWhile (fun c => c = '-')).reverse.dropWhile (fun c => c = '-')).reverse

/-- Model of .replace of a run of two or more hyphens (globally) with a
single hyphen.  The flag records whether the previously emitted character
was a hyphen of a run being collapsed. -/
def collapseHyphensGo : Bool → List Char → List Char
  | _, [] => []
  | prevHyphen, c :: rest =>
      if c = '-' then
        if prevHyphen then collapseHyphensGo true rest
        else '-' :: collapseHyphensGo true rest
      else c :: collapseHyphensGo false rest

/-- Collapse repeated hyphens to a single one. -/
def collapseHyphens (l : List Char) : List Char := collapseHyphensGo false l

/-- The normalization pipeline of slugify before the fallback check:
normalize('NFD'), strip combining marks, toLowerCase (ASCII model of the
JavaScript builtin: only A-Z are mapped), trim, replace non-alphanumeric
runs with hyphens, strip leading/trailing hyphens, collapse repeated
hyphens. -/
def slugNormalize (value : String) : List Char :=
  collapseHyphens (stripEdgeHyphens (replaceRuns (jsTrimCore
    (((value.data.flatMap nfdChar).filter
        (fun c => ¬ isCombiningMark c)).map Char.toLower))))

/-- Embedding of slugify: the normalized string, or the fallback when the
normalized string is empty. -/
def slugify (value : String) (fallback : String) : String :=
  let normalized := (slugNormalize value).asString
  if normalized.length > 0 then normalized else fallback

/-- The candidate tried at a given attempt number by generateUniqueSlug: the
base slug itself at attempt 1, and the base slug, a hyphen and the decimal
rendering of the attempt number afterwards (template-literal rendering of a
number is modelled by Nat.repr, the decimal printer). -/
def slugCandidate (base : String) (attempt : Nat) : String :=
  if attempt = 1 then base else base ++ "-" ++ Nat.repr attempt

/-- The while loop of generateUniqueSlug: as long as the candidate is taken,
move to the next attempt.  The loop in the source is unbounded; here it
carries explicit fuel, and the theorems show that the fuel the wrapper
supplies (length of the existing list plus one) is always enough for the
loop to exit on an untaken candidate. -/
def uniqueSlugLoop (base : String) (used : List String) :
    Nat → Nat → String
  | 0, attempt => slugCandidate base attempt
  | fuel + 1, attempt =>
      let slug := slugCandidate base attempt
      if slug ∈ used then uniqueSlugLoop base used fuel (attempt + 1)
      else slug

/-- Embedding of generateUniqueSlug: slugify the value (with the default
fallback when none is given), then append -2, -3, and so on until the result
is not among the existing slugs. -/
def generateUniqueSlug (value : String) (existingSlugs : List String)
    (fallback : Option String) : String :=
  let baseSlug := slugify value (fallback.getD "slug")
  uniqueSlugLoop baseSlug existingSlugs (existingSlugs.length + 1) 1

/-- Deterministic recognizer of the anchored slug regex: one or more
characters of [a-z0-9], then any number of groups of a hyphen followed by
one or more characters of [a-z0-9].  The flag records whether at least one
alphanumeric character has been read since the start or the last hyphen; the
input is accepted at the end exactly when the flag is set. -/
def slugRegexAccepts : Bool → List Char → Bool
  | seenAlnum, [] => seenAlnum
  | seenAlnum, c :: rest =>
      if isLowerAlnum c then slugRegexAccepts true rest
      else if c = '-' ∧ seenAlnum then slugRegexAccepts false rest
      else false

/-- Embedding of isValidSlug: test against the slug regex. -/
def isValidSlug (s : String) : Bool := slugRegexAccepts false s.data

/-- Embedding of slugSchema (src/id/id.schemas.ts): z.string().regex with the
same slug pattern; on failure Zod reports one issue with the schema's
message. -/
def slugSchemaParse (s : String) : Except (List ZodIssueLite) String :=
  if slugRegexAccepts false s.data then .ok s
  else .error
    [⟨[], "Invalid slug format (must be lowercase alphanumeric with hyphens)"⟩]

/-- Decimal digit list of a natural number, most significant digit first:
the specification-level counterpart of the fuelled Nat.toDigitsCore used by
Nat.repr; used to reason about the decimal printer. -/
def natDecimal (n : Nat) : List Char :=
  if h : n / 10 = 0 then [Nat.digitChar (n % 10)]
  else natDecimal (n / 10) ++ [Nat.digitChar (n % 10)]
decreasing_by omega

/-- No two adjacent characters are both hyphens. -/
def NoDoubleHyphen (l : List Char) : Prop :=
  List.Chain' (fun a b => ¬(a = '-' ∧ b = '-')) l

/-! ## Theorems -/

/-! ### Supporting lemmas: dropWhile, trim -/

theorem dropWhile_dropWhile_self {α : Type} (p : α → Bool) (l : List α) :
    (l.dropWhile p).dropWhile p = l.dropWhile p := by
  induction l with
  | nil => rfl
  | cons c t ih => by_cases h : p c <;> simp [List.dropWhile_cons, h, ih]

theorem head?_dropWhile_false {α : Type} (p : α → Bool) (l : List α) (c : α)
    (h : (l.dropWhile p).head? = some c) : p c = false := by
  induction l with
  | nil => simp at h
  | cons a t ih =>
      by_cases hp : p a
      · rw [List.dropWhile_cons, if_pos hp] at h
        exact ih h
      · rw [List.dropWhile_cons, if_neg hp] at h
        simp at h
        rw [← h]
        simpa using hp

theorem dropWhile_eq_self_of_head {α : Type} (p : α → Bool) (l : List α)
    (h : ∀ c, l.head? = some c → p c = false) : l.dropWhile p = l := by
  cases l with
  | nil => rfl
  | cons a t => rw [List.dropWhile_cons, if_neg (by simp [h a rfl])]

theorem getLast?_dropWhile {α : Type} (p : α → Bool) (l : List α)
    (h : l.dropWhile p ≠ []) : (l.dropWhile p).getLast? = l.getLast? := by
  induction l with
  | nil => simp at h
  | cons a t ih =>
      by_cases hp : p a
      · rw [List.dropWhile_cons, if_pos hp] at h ⊢
        have ht : t ≠ [] := by
          intro e
          exact h (by simp [e])
        rw [ih h]
        cases t with
        | nil => exact absurd rfl ht
        | cons b tt => rw [List.getLast?_cons_cons]
      · rw [List.dropWhile_cons, if_neg hp]

/-- The list-level trim never exposes leading or trailing whitespace, so
trimming a second time changes nothing. -/
theorem jsTrimCore_idempotent (l : List Char) :
    jsTrimCore (jsTrimCore l) = jsTrimCore l := by
  unfold jsTrimCore
  set ws := jsIsWhitespace
  set Y := l.dropWhile ws with hY
  set Z := Y.reverse.dropWhile ws with hZ
  have hdZ : Z.reverse.dropWhile ws = Z.reverse := by
    apply dropWhile_eq_self_of_head
    intro c hc
    rw [List.head?_reverse] at hc
    by_cases hz : Z = []
    · simp [hz] at hc
    · rw [hZ, getLast?_dropWhile ws Y.reverse (hZ ▸ hz),
        List.getLast?_reverse] at hc
      exact head?_dropWhile_false ws l c (hY ▸ hc)
  rw [hdZ, List.reverse_reverse, hZ, dropWhile_dropWhile_self]

/-- The trim builtin is idempotent. -/
theorem jsTrim_idempotent (s : String) : jsTrim (jsTrim s) = jsTrim s := by
  unfold jsTrim
  have : ((jsTrimCore s.data).asString).data = jsTrimCore s.data := rfl
  rw [this, jsTrimCore_idempotent]

/-! ### Supporting lemmas: the decimal printer -/

theorem digitChar_toNat (d : Nat) (h : d < 10) :
    (Nat.digitChar d).toNat = 48 + d := by
  interval_cases d <;> rfl

theorem digitChar_isDigit (d : Nat) (h : d < 10) :
    (Nat.digitChar d).isDigit = true := by
  interval_cases d <;> rfl

/-- The fuelled digit loop of the core printer produces the digit list of
natDecimal whenever the fuel exceeds the number being printed. -/
theorem toDigitsCore_eq_natDecimal :
    ∀ (fuel n : Nat) (ds : List Char), n < fuel →
      Nat.toDigitsCore 10 fuel n ds = natDecimal n ++ ds := by
  intro fuel
  induction fuel with
  | zero => intro n ds h; omega
  | succ f ih =>
      intro n ds h
      by_cases h0 : n / 10 = 0
      · rw [Nat.toDigitsCore, if_pos h0, natDecimal, dif_pos h0]
        rfl
      · have hf : n / 10 < f := by omega
        have hrhs : natDecimal n =
            natDecimal (n / 10) ++ [Nat.digitChar (n % 10)] := by
          conv_lhs => rw [natDecimal]
          rw [dif_neg h0]
        rw [Nat.toDigitsCore, if_neg h0,
          ih (n / 10) (Nat.digitChar (n % 10) :: ds) hf, hrhs,
          List.append_assoc]
        rfl

/-- Nat.repr is the decimal digit list of natDecimal, as a string. -/
theorem repr_data_eq_natDecimal (n : Nat) :
    (Nat.repr n).data = natDecimal n := by
  show (Nat.toDigits 10 n).asString.data = natDecimal n
  rw [Nat.toDigits, toDigitsCore_eq_natDecimal (n + 1) n [] (Nat.lt_succ_self n)]
  simp [List.asString]

theorem digitsVal_append_singleton (l : List Char) (c : Char) :
    digitsVal (l ++ [c]) = 10 * digitsVal l + (c.toNat - 48) := by
  simp [digitsVal, List.foldl_append]

/-- Reading the decimal digit list back gives the number: the printer has a
left inverse. -/
theorem digitsVal_natDecimal (n : Nat) : digitsVal (natDecimal n) = n := by
  induction n using Nat.strong_induction_on with
  | _ n ih =>
      by_cases h0 : n / 10 = 0
      · rw [natDecimal, dif_pos h0]
        have hn : n < 10 := by omega
        simp [digitsVal, digitChar_toNat (n % 10) (Nat.mod_lt n (by omega) )]
        omega
      · rw [natDecimal, dif_neg h0, digitsVal_append_singleton,
          ih (n / 10) (by omega),
          digitChar_toNat (n % 10) (Nat.mod_lt n (by omega))]
        omega

theorem natDecimal_all_digits (n : Nat) :
    ∀ c ∈ natDecimal n, c.isDigit = true := by
  induction n using Nat.strong_induction_on with
  | _ n ih =>
      by_cases h0 : n / 10 = 0
      · rw [natDecimal, dif_pos h0]
        intro c hc
        simp at hc
        subst hc
        exact digitChar_isDigit _ (Nat.mod_lt n (by omega))
      · rw [natDecimal, dif_neg h0]
        intro c hc
        rcases List.mem_append.mp hc with h | h
        · exact ih (n / 10) (by omega) c h
        · simp at h
          subst h
          exact digitChar_isDigit _ (Nat.mod_lt n (by omega))

theorem natDecimal_ne_nil (n : Nat) : natDecimal n ≠ [] := by
  by_cases h0 : n / 10 = 0
  · rw [natDecimal, dif_pos h0]; simp
  · rw [natDecimal, dif_neg h0]; simp

/-- The Number() model reads a printed natural number back: coercion of the
decimal rendering succeeds and returns the number. -/
theorem jsStringToInt_repr (n : Nat) :
    jsStringToInt (Nat.repr n) = some (n : Int) := by
  unfold jsStringToInt
  rw [show (Nat.repr n).data = natDecimal n from repr_data_eq_natDecimal n]
  rcases hnd : natDecimal n with _ | ⟨c, rest⟩
  · exact absurd hnd (natDecimal_ne_nil n)
  · have hall : ∀ x ∈ natDecimal n, x.isDigit = true := natDecimal_all_digits n
    have hcd : c.isDigit = true := hall c (by rw [hnd]; simp)
    have hcne : ¬ c = '-' := by
      intro e
      rw [e] at hcd
      simp [Char.isDigit] at hcd
    rw [jsCharsToInt, if_neg hcne, if_pos]
    · have hv : digitsVal (c :: rest) = n := by
        rw [← hnd, digitsVal_natDecimal]
      rw [hv]
    · rw [← hnd]
      simpa [List.all_eq_true] using hall

/-- The decimal printer is injective. -/
theorem repr_injective (n m : Nat) (h : Nat.repr n = Nat.repr m) : n = m := by
  have h1 := jsStringToInt_repr n
  rw [h, jsStringToInt_repr m] at h1
  have h2 : (m : Int) = n := by simpa using h1
  exact_mod_cast h2.symm

/-! ### Supporting lemmas: the coercing pagination query schema -/

/-- A successfully parsed coerced number field is positive and within the
maximum, provided the default itself is. -/
theorem parseCoercedPositiveInt_ok_facts (path : String) (mx : Option Int)
    (d : Int) (x : Option QueryValue) (n : Int) (hd : 0 < d)
    (h : parseCoercedPositiveInt path mx d x = .ok n) :
    0 < n ∧ ∀ m, mx = some m → d ≤ m → n ≤ m := by
  cases x with
  | none =>
      simp only [parseCoercedPositiveInt] at h
      have hdn : d = n := by simpa using h
      subst hdn
      exact ⟨hd, fun m hm hdm => hdm⟩
  | some v =>
      simp only [parseCoercedPositiveInt] at h
      rcases hc : coerceToInt v with _ | k <;> rw [hc] at h
      · simp [checkPositiveInt] at h
      · cases mx with
        | none =>
            simp only [checkPositiveInt] at h
            split at h
            · simp at h
            · next hk =>
                have hkn : k = n := by simpa using h
                subst hkn
                exact ⟨by omega, fun m hm => by simp at hm⟩
        | some m =>
            simp only [checkPositiveInt] at h
            split at h
            · simp at h
            · next hk =>
                split at h
                · simp at h
                · next hm =>
                    have hkn : k = n := by simpa using h
                    subst hkn
                    refine ⟨by omega, fun m2 hm2 _ => ?_⟩
                    have hmm : m = m2 := by simpa using hm2
                    omega

/-- Parsing a number field on an in-range numeric value succeeds with that
value. -/
theorem parseCoercedPositiveInt_roundtrip (path : String) (mx : Option Int)
    (d n : Int) (hn : 0 < n) (hmx : ∀ m, mx = some m → n ≤ m) :
    parseCoercedPositiveInt path mx d (some (.num n)) = .ok n := by
  cases mx with
  | none =>
      simp only [parseCoercedPositiveInt, coerceToInt, checkPositiveInt]
      rw [if_neg (by omega)]
  | some m =>
      simp only [parseCoercedPositiveInt, coerceToInt, checkPositiveInt]
      rw [if_neg (by omega), if_neg (by have := hmx m rfl; omega)]

/-- Parsing a number field on the decimal rendering of an in-range natural
number succeeds with that number: textual query-string values are accepted. -/
theorem parseCoercedPositiveInt_reprStr (path : String) (mx : Option Int)
    (d : Int) (p : Nat) (hp : 0 < p)
    (hmx : ∀ m, mx = some m → (p : Int) ≤ m) :
    parseCoercedPositiveInt path mx d (some (.str (Nat.repr p))) =
      .ok (p : Int) := by
  cases mx with
  | none =>
      simp only [parseCoercedPositiveInt, coerceToInt, jsStringToInt_repr,
        checkPositiveInt]
      rw [if_neg (by omega)]
  | some m =>
      simp only [parseCoercedPositiveInt, coerceToInt, jsStringToInt_repr,
        checkPositiveInt]
      rw [if_neg (by omega), if_neg (by have := hmx m rfl; omega)]

/-- A successfully parsed search field is absent or an already-trimmed
string. -/
theorem parseOptionalTrimmedString_ok (path : String) (x : Option QueryValue)
    (se : Option String) (h : parseOptionalTrimmedString path x = .ok se) :
    se = none ∨ ∃ s, se = some (jsTrim s) := by
  cases x with
  | none => left; simpa [parseOptionalTrimmedString] using h.symm
  | some v =>
      cases v with
      | str s =>
          right
          exact ⟨s, by simpa [parseOptionalTrimmedString] using h.symm⟩
      | num k => simp [parseOptionalTrimmedString] at h

/-- A successfully parsed sortBy field is absent or the given string. -/
theorem parseOptionalPlainString_ok (path : String) (x : Option QueryValue)
    (sb : Option String) (h : parseOptionalPlainString path x = .ok sb) :
    sb = none ∨ ∃ s, x = some (.str s) ∧ sb = some s := by
  cases x with
  | none => left; simpa [parseOptionalPlainString] using h.symm
  | some v =>
      cases v with
      | str s =>
          right
          exact ⟨s, rfl, by simpa [parseOptionalPlainString] using h.symm⟩
      | num k => simp [parseOptionalPlainString] at h

/-- A successfully parsed sortOrder is one of the two enum values. -/
theorem parseSortOrder_ok (x : Option QueryValue) (so : String)
    (h : parseSortOrder x = .ok so) : so = "ASC" ∨ so = "DESC" := by
  cases x with
  | none => right; simpa [parseSortOrder] using h.symm
  | some v =>
      cases v with
      | str s =>
          simp only [parseSortOrder] at h
          split at h
          · next hs =>
              have : s = so := by simpa using h
              subst this
              exact hs
          · simp at h
      | num k => simp [parseSortOrder] at h

/-- C1 counterexample: the nestjs variant of the validation pipe raises a
payload that does contain the detailed per-issue path/message diagnostic
(and its message is "Validation failed", not the short generic string), so
the claim is false for that pipe. -/
theorem nestPipe_payload_contains_detailed_errors :
    nestZodValidationPipeTransform
        (fun _ => "Validation error: Number must be greater than 0 at page")
        samplePositiveSchema 0 =
      .badRequest ⟨400, "Validation failed",
        "Validation error: Number must be greater than 0 at page",
        [("page", "Number must be greater than 0")]⟩ ∧
    ([("page", "Number must be greater than 0")] : List (String × String)) ≠
      [] := by
  constructor
  · decide
  · decide

/-- C1 amended: the pipe of src/pipes raises, for every schema and failing
value, exactly the generic 400 body with message "Validation error" and no
per-issue data; the nestjs variant instead raises a 400 body with message
"Validation failed" that carries every issue's dot-joined path and message. -/
theorem validationPipe_failure_payloads {α β : Type}
    (schema : α → Except (List ZodIssueLite) β) (value : α)
    (issues : List ZodIssueLite) (fmt : List ZodIssueLite → String)
    (hfail : schema value = .error issues) :
    zodValidationPipeTransform schema value =
      .badRequest ⟨400, "Validation error", "Bad Request", []⟩ ∧
    nestZodValidationPipeTransform fmt schema value =
      .badRequest ⟨400, "Validation failed", fmt issues,
        issues.map (fun i => (String.intercalate "." i.path, i.message))⟩ := by
  constructor
  · simp [zodValidationPipeTransform, hfail]
  · simp [nestZodValidationPipeTransform, hfail]

/-- Witness for the amended C1 theorem at a concrete failing validation. -/
theorem validationPipe_failure_payloads_witness :
    zodValidationPipeTransform samplePositiveSchema 0 =
      .badRequest ⟨400, "Validation error", "Bad Request", []⟩ :=
  (validationPipe_failure_payloads samplePositiveSchema 0
    [⟨["page"], "Number must be greater than 0"⟩] (fun _ => "formatted")
    (by decide)).1

/-- C2 counterexample: in production the all-exceptions filter replaces the
message of a 400 HttpException too — the extracted message
"Custom bad request" does not pass through to the envelope. -/
theorem allExceptions_sanitizes_4xx_in_production :
    (allExceptionsFilterCatch "production"
        (.http ⟨400, .obj (some (.str "Custom bad request")) none⟩)
        ⟨"/api/items", "POST"⟩ "ts").body.message =
      .str "Internal server error" ∧
    allExceptionsMessage
        (.http ⟨400, .obj (some (.str "Custom bad request")) none⟩) =
      .str "Custom bad request" ∧
    JsMessage.str "Custom bad request" ≠ .str "Internal server error" := by
  refine ⟨by decide, by decide, by decide⟩

/-- C2 amended: the HttpException filter sanitizes in production only the
statuses at least 500 (replacing message and error by the generic strings)
and passes the extracted message and error through unchanged for the 4xx
statuses; the all-exceptions filter instead replaces the outward message for
every status in production. -/
theorem production_sanitization_scope (exc : HttpExceptionModel)
    (req : RequestInfo) (ts : String) :
    (500 ≤ exc.status →
      (httpExceptionFilterCatch "production" exc req ts).body.message =
          .str "Internal server error" ∧
        (httpExceptionFilterCatch "production" exc req ts).body.error =
          "Internal Server Error") ∧
    (400 ≤ exc.status → exc.status < 500 →
      (httpExceptionFilterCatch "production" exc req ts).body.message =
          extractHttpMessage exc.response ∧
        (httpExceptionFilterCatch "production" exc req ts).body.error =
          extractHttpError exc.status exc.response) ∧
    (allExceptionsFilterCatch "production" (.http exc) req ts).body.message =
      .str "Internal server error" := by
  refine ⟨fun h5 => ?_, fun _ h4 => ?_, ?_⟩
  · simp [httpExceptionFilterCatch, h5]
  · simp [httpExceptionFilterCatch, Nat.not_le.mpr h4]
  · simp [allExceptionsFilterCatch]

/-- Witness for the amended C2 theorem: a 503 is sanitized and a 404 passes
through, at concrete exceptions. -/
theorem production_sanitization_scope_witness :
    (httpExceptionFilterCatch "production"
        ⟨503, .obj (some (.str "upstream down")) none⟩ ⟨"/u", "GET"⟩
        "ts").body.message = .str "Internal server error" ∧
    (httpExceptionFilterCatch "production"
        ⟨404, .obj (some (.str "No such user")) none⟩ ⟨"/u", "GET"⟩
        "ts").body.message = .str "No such user" := by
  constructor
  · exact ((production_sanitization_scope
      ⟨503, .obj (some (.str "upstream down")) none⟩ ⟨"/u", "GET"⟩ "ts").1
      (by decide)).1
  · have h := ((production_sanitization_scope
      ⟨404, .obj (some (.str "No such user")) none⟩ ⟨"/u", "GET"⟩ "ts").2.1
      (by decide) (by decide)).1
    simpa [extractHttpMessage, jsTruthyMessage] using h

/-- C3: the all-exceptions filter maps an unclassified error in production
to the 500 envelope with the generic message and error name — but outside
production it produces the very same generic message instead of the error's
real message, contradicting the claim (and the filter's own comment that
development includes full details; the errorDetails it builds are dropped). -/
theorem allExceptions_unclassified_hides_message_in_development :
    allExceptionsFilterCatch "production"
        (.unclassified "Database connection failed") ⟨"/api/users", "GET"⟩
        "ts" =
      ⟨500, ⟨500, .str "Internal server error", "Internal Server Error",
        "ts", "/api/users", "GET"⟩⟩ ∧
    (allExceptionsFilterCatch "development"
        (.unclassified "Database connection failed") ⟨"/api/users", "GET"⟩
        "ts").body.message = .str "Internal server error" ∧
    JsMessage.str "Internal server error" ≠
      .str "Database connection failed" := by
  refine ⟨by decide, by decide, by decide⟩

/-- C4: both filters put the true status determined from the exception into
the envelope's statusCode and into the HTTP response status, for every value
of NODE_ENV — production sanitization never touches the statusCode. -/
theorem statusCode_reflects_true_status (nodeEnv : String)
    (exc : HttpExceptionModel) (t : ThrownException) (req : RequestInfo)
    (ts : String) :
    ((httpExceptionFilterCatch nodeEnv exc req ts).body.statusCode =
        exc.status ∧
      (httpExceptionFilterCatch nodeEnv exc req ts).responseStatus =
        exc.status) ∧
    ((allExceptionsFilterCatch nodeEnv t req ts).body.statusCode =
        allExceptionsStatus t ∧
      (allExceptionsFilterCatch nodeEnv t req ts).responseStatus =
        allExceptionsStatus t) := by
  refine ⟨⟨?_, ?_⟩, ?_, ?_⟩ <;>
    simp only [httpExceptionFilterCatch, allExceptionsFilterCatch] <;>
    split <;> rfl

/-- The ceiling-division formula used by calculatePaginationMeta agrees with
the rational ceiling of total / limit whenever limit is positive. -/
theorem natCeilDiv_eq_rat_ceil (total limit : Nat) (hlimit : 1 ≤ limit) :
    (((total + limit - 1) / limit : Nat) : ℤ) =
      ⌈(total : ℚ) / (limit : ℚ)⌉ := by
  have hpos : 0 < limit := hlimit
  have hmod : (total + limit - 1) % limit < limit := Nat.mod_lt _ hpos
  have hdm := Nat.div_add_mod (total + limit - 1) limit
  rw [Nat.mul_comm] at hdm
  set q := (total + limit - 1) / limit with hq
  have h1 : total ≤ q * limit := by omega
  have h2 : q * limit < total + limit := by omega
  have hlq : (0 : ℚ) < (limit : ℚ) := by exact_mod_cast hpos
  symm
  rw [Int.ceil_eq_iff]
  constructor
  · rw [lt_div_iff₀ hlq]
    have h2' : (q : ℚ) * limit < (total : ℚ) + limit := by exact_mod_cast h2
    push_cast
    nlinarith
  · rw [div_le_iff₀ hlq]
    have h1' : (total : ℚ) ≤ (q : ℚ) * limit := by exact_mod_cast h1
    push_cast
    linarith

/-- C5: for page and limit at least 1, calculatePaginationMeta copies page,
limit and total, sets totalPages to the ceiling of total / limit, and sets
hasNextPage exactly when page < totalPages and hasPreviousPage exactly when
page > 1; on page 2, limit 10, total 45 it yields exactly
(2, 10, 45, 5, true, true). -/
theorem calculatePaginationMeta_spec (page limit total : Nat)
    (hpage : 1 ≤ page) (hlimit : 1 ≤ limit) :
    (calculatePaginationMeta ⟨page, limit⟩ total).page = page ∧
    (calculatePaginationMeta ⟨page, limit⟩ total).limit = limit ∧
    (calculatePaginationMeta ⟨page, limit⟩ total).total = total ∧
    (((calculatePaginationMeta ⟨page, limit⟩ total).totalPages : ℤ) =
      ⌈(total : ℚ) / (limit : ℚ)⌉) ∧
    ((calculatePaginationMeta ⟨page, limit⟩ total).hasNextPage = true ↔
      page < (calculatePaginationMeta ⟨page, limit⟩ total).totalPages) ∧
    ((calculatePaginationMeta ⟨page, limit⟩ total).hasPreviousPage = true ↔
      1 < page) ∧
    calculatePaginationMeta ⟨2, 10⟩ 45 = ⟨2, 10, 45, 5, true, true⟩ := by
  refine ⟨rfl, rfl, rfl, natCeilDiv_eq_rat_ceil total limit hlimit, ?_, ?_,
    by decide⟩
  · simp [calculatePaginationMeta]
  · simp [calculatePaginationMeta]

/-- C6 counterexample: the coercing schema does not clamp limit to 100 — on
limit "200" parsing fails with a too-big issue instead of succeeding with
limit 100. -/
theorem coerceSchema_rejects_limit_beyond_max :
    paginationQueryCoerceParse
        { page := some (.str "1"), limit := some (.str "200"), search := none,
          sortBy := none, sortOrder := none } =
      .error [("limit", .tooBig)] ∧
    paginationQueryCoerceParse
        { page := some (.str "1"), limit := some (.str "200"), search := none,
          sortBy := none, sortOrder := none } ≠
      .ok ⟨1, 100, none, none, "DESC"⟩ := by
  refine ⟨by decide, by decide⟩

/-- C6 amended: the coercing pagination query schema accepts page and limit
as numeric strings, defaults page to 1, limit to 10 and sortOrder to "DESC"
when absent, and enforces (rather than clamps to) a maximum limit of 100:
every accepted value has positive page, and limit between 1 and 100, while
parsing the two example inputs yields exactly the claimed outputs. -/
theorem paginationQueryCoerce_behavior :
    paginationQueryCoerceParse
        { page := some (.str "2"), limit := some (.str "20"), search := none,
          sortBy := none, sortOrder := none } =
      .ok ⟨2, 20, none, none, "DESC"⟩ ∧
    paginationQueryCoerceParse emptyQuery = .ok ⟨1, 10, none, none, "DESC"⟩ ∧
    (∀ p l : Nat, 0 < p → 0 < l → l ≤ 100 →
      paginationQueryCoerceParse
          { page := some (.str (Nat.repr p)),
            limit := some (.str (Nat.repr l)), search := none,
            sortBy := none, sortOrder := none } =
        .ok ⟨(p : Int), (l : Int), none, none, "DESC"⟩) ∧
    (∀ q r, paginationQueryCoerceParse q = .ok r →
      1 ≤ r.page ∧ 1 ≤ r.limit ∧ r.limit ≤ 100) := by
  refine ⟨by decide, by decide, ?_, ?_⟩
  · intro p l hp hl hl100
    have e1 := parseCoercedPositiveInt_reprStr "page" none 1 p hp
      (fun m hm => by simp at hm)
    have e2 := parseCoercedPositiveInt_reprStr "limit" (some 100) 10 l hl
      (fun m hm => by
        have hm100 : m = 100 := by simpa using hm.symm
        subst hm100
        exact_mod_cast hl100)
    simp only [paginationQueryCoerceParse]
    rw [e1, e2]
    rfl
  · intro q r h
    unfold paginationQueryCoerceParse at h
    split at h
    · next p l se sb so hp hl hs hb ho =>
        have hr : r = ⟨p, l, se, sb, so⟩ := by simpa using h.symm
        subst hr
        obtain ⟨hp1, _⟩ :=
          parseCoercedPositiveInt_ok_facts _ _ _ _ _ (by norm_num) hp
        obtain ⟨hl1, hlm⟩ :=
          parseCoercedPositiveInt_ok_facts _ _ _ _ _ (by norm_num) hl
        exact ⟨hp1, hl1, hlm 100 rfl (by norm_num)⟩
    · exact absurd h (by simp)

/-- Witness for the amended C6 theorem at page "2", limit "20". -/
theorem paginationQueryCoerce_behavior_witness :
    ((0 : Nat) < 2 ∧ (0 : Nat) < 20 ∧ (20 : Nat) ≤ 100) ∧
    paginationQueryCoerceParse
        { page := some (.str (Nat.repr 2)), limit := some (.str (Nat.repr 20)),
          search := none, sortBy := none, sortOrder := none } =
      .ok ⟨2, 20, none, none, "DESC"⟩ :=
  ⟨by decide,
    paginationQueryCoerce_behavior.2.2.1 2 20 (by decide) (by decide)
      (by decide)⟩

/-- C7: validation with the coercing pagination query schema is idempotent —
feeding an accepted output back through the schema succeeds and returns the
identical value. -/
theorem paginationQueryCoerce_idempotent (q : QueryInput)
    (r : PaginationQueryCoerce) (h : paginationQueryCoerceParse q = .ok r) :
    paginationQueryCoerceParse (queryOfOutput r) = .ok r := by
  unfold paginationQueryCoerceParse at h
  split at h
  · next p l se sb so hp hl hs hb ho =>
      have hr : r = ⟨p, l, se, sb, so⟩ := by simpa using h.symm
      subst hr
      obtain ⟨hp1, _⟩ :=
        parseCoercedPositiveInt_ok_facts _ _ _ _ _ (by norm_num) hp
      obtain ⟨hl1, hlm⟩ :=
        parseCoercedPositiveInt_ok_facts _ _ _ _ _ (by norm_num) hl
      have e1 : parseCoercedPositiveInt "page" none 1 (some (.num p)) =
          .ok p :=
        parseCoercedPositiveInt_roundtrip _ _ _ _ hp1
          (fun m hm => by simp at hm)
      have e2 : parseCoercedPositiveInt "limit" (some 100) 10
          (some (.num l)) = .ok l :=
        parseCoercedPositiveInt_roundtrip _ _ _ _ hl1
          (fun m hm => by
            have hm100 : m = 100 := by simpa using hm.symm
            subst hm100
            exact hlm 100 rfl (by norm_num))
      have e3 : parseOptionalTrimmedString "search"
          (se.map QueryValue.str) = .ok se := by
        rcases parseOptionalTrimmedString_ok _ _ _ hs with hse | ⟨s, hse⟩
        · subst hse; rfl
        · subst hse
          simp [parseOptionalTrimmedString, jsTrim_idempotent]
      have e4 : parseOptionalPlainString "sortBy"
          (sb.map QueryValue.str) = .ok sb := by
        rcases parseOptionalPlainString_ok _ _ _ hb with hsb | ⟨s, _, hsb⟩
        · subst hsb; rfl
        · subst hsb; rfl
      have e5 : parseSortOrder (some (.str so)) = .ok so := by
        rcases parseSortOrder_ok _ _ ho with h1 | h1 <;> subst h1 <;> rfl
      simp only [paginationQueryCoerceParse, queryOfOutput]
      rw [e1, e2, e3, e4, e5]
  · exact absurd h (by simp)

/-- Witness for the C7 theorem at a concrete accepted input. -/
theorem paginationQueryCoerce_idempotent_witness :
    paginationQueryCoerceParse (queryOfOutput ⟨2, 20, none, none, "DESC"⟩) =
      .ok ⟨2, 20, none, none, "DESC"⟩ :=
  paginationQueryCoerce_idempotent
    { page := some (.str "2"), limit := some (.str "20"), search := none,
      sortBy := none, sortOrder := none } _ (by decide)

/-! ### Supporting lemmas: unique slug generation -/

theorem slugCandidate_one (base : String) : slugCandidate base 1 = base :=
  rfl

theorem slugCandidate_length_lt (base : String) (k : Nat) (hk : 2 ≤ k) :
    base.length < (slugCandidate base k).length := by
  unfold slugCandidate
  rw [if_neg (by omega), String.length_append, String.length_append]
  have hne : (Nat.repr k).data ≠ [] := by
    rw [repr_data_eq_natDecimal]
    exact natDecimal_ne_nil k
  have hpos : 0 < (Nat.repr k).length := List.length_pos.mpr hne
  omega

/-- Distinct attempt numbers produce distinct candidates for the same base:
the candidate sequence never repeats. -/
theorem slugCandidate_injOn (base : String) (j k : Nat) (hj : 1 ≤ j)
    (hk : 1 ≤ k) (h : slugCandidate base j = slugCandidate base k) :
    j = k := by
  by_cases hj1 : j = 1 <;> by_cases hk1 : k = 1
  · omega
  · exfalso
    subst hj1
    rw [slugCandidate_one] at h
    have := slugCandidate_length_lt base k (by omega)
    rw [← h] at this
    omega
  · exfalso
    subst hk1
    rw [slugCandidate_one] at h
    have := slugCandidate_length_lt base j (by omega)
    rw [h] at this
    omega
  · unfold slugCandidate at h
    rw [if_neg hj1, if_neg hk1] at h
    have hd := congrArg String.data h
    simp only [String.data_append] at hd
    have hd2 : (Nat.repr j).data = (Nat.repr k).data := by
      have h1 := List.append_cancel_left hd
      simpa using h1
    rw [repr_data_eq_natDecimal, repr_data_eq_natDecimal] at hd2
    have := congrArg digitsVal hd2
    rwa [digitsVal_natDecimal, digitsVal_natDecimal] at this

/-- Pigeonhole: among the first (number of existing slugs plus one) pairwise
distinct candidates, at least one is not an existing slug. -/
theorem exists_fresh_candidate (base : String) (used : List String) :
    ∃ k, 1 ≤ k ∧ k ≤ used.length + 1 ∧ slugCandidate base k ∉ used := by
  by_contra hcon
  push_neg at hcon
  have hsub : (Finset.Icc 1 (used.length + 1)).image (slugCandidate base) ⊆
      used.toFinset := by
    intro s hs
    simp only [Finset.mem_image, Finset.mem_Icc] at hs
    obtain ⟨k, ⟨h1, h2⟩, rfl⟩ := hs
    exact List.mem_toFinset.mpr (hcon k h1 h2)
  have hinj : Set.InjOn (slugCandidate base)
      ((Finset.Icc 1 (used.length + 1)) : Finset Nat) := by
    intro j hj k hk hjk
    simp only [Finset.coe_Icc, Set.mem_Icc] at hj hk
    exact slugCandidate_injOn base j k hj.1 hk.1 hjk
  have hcard : used.length + 1 ≤ used.toFinset.card := by
    calc used.length + 1
        = (Finset.Icc 1 (used.length + 1)).card := by simp [Nat.card_Icc]
      _ = ((Finset.Icc 1 (used.length + 1)).image
            (slugCandidate base)).card :=
          (Finset.card_image_of_injOn hinj).symm
      _ ≤ used.toFinset.card := Finset.card_le_card hsub
  have := used.toFinset_card_le
  omega

/-- Characterization of the loop: with any attempt window containing an
untaken candidate, it stops at the first untaken candidate at or after the
starting attempt. -/
theorem uniqueSlugLoop_spec (base : String) (used : List String) :
    ∀ (fuel a : Nat),
      (∃ k, a ≤ k ∧ k < a + fuel ∧ slugCandidate base k ∉ used) →
      ∃ k, a ≤ k ∧ uniqueSlugLoop base used fuel a = slugCandidate base k ∧
        slugCandidate base k ∉ used ∧
        ∀ j, a ≤ j → j < k → slugCandidate base j ∈ used := by
  intro fuel
  induction fuel with
  | zero =>
      rintro a ⟨k, h1, h2, _⟩
      omega
  | succ f ih =>
      rintro a ⟨k, hk1, hk2, hk3⟩
      by_cases hmem : slugCandidate base a ∈ used
      · have hka : k ≠ a := by
          intro e
          rw [e] at hk3
          exact hk3 hmem
        obtain ⟨k', h1', h2', h3', h4'⟩ :=
          ih (a + 1) ⟨k, by omega, by omega, hk3⟩
        refine ⟨k', by omega, ?_, h3', ?_⟩
        · simpa [uniqueSlugLoop, hmem] using h2'
        · intro j hj1 hj2
          by_cases hja : j = a
          · rw [hja]; exact hmem
          · exact h4' j (by omega) hj2
      · refine ⟨a, le_refl a, ?_, hmem, ?_⟩
        · simp [uniqueSlugLoop, hmem]
        · intro j hj1 hj2
          omega

/-- C8: generateUniqueSlug always returns (the loop needs no more fuel than
the wrapper supplies) the first candidate of the sequence base, base-2,
base-3, and so on that is not among the existing slugs, where base is the
slugified input — in particular the result is never an existing slug — and
on "my-post" against existing "my-post" and "my-post-2" it returns
"my-post-3". -/
theorem generateUniqueSlug_spec :
    (∀ (value : String) (existing : List String) (fb : Option String),
      ∃ k, 1 ≤ k ∧
        generateUniqueSlug value existing fb =
          slugCandidate (slugify value (fb.getD "slug")) k ∧
        generateUniqueSlug value existing fb ∉ existing ∧
        ∀ j, 1 ≤ j → j < k →
          slugCandidate (slugify value (fb.getD "slug")) j ∈ existing) ∧
    generateUniqueSlug "my-post" ["my-post", "my-post-2"] none =
      "my-post-3" := by
  constructor
  · intro value existing fb
    obtain ⟨k0, h01, h02, h03⟩ :=
      exists_fresh_candidate (slugify value (fb.getD "slug")) existing
    obtain ⟨k, hk1, hk2, hk3, hk4⟩ :=
      uniqueSlugLoop_spec (slugify value (fb.getD "slug")) existing
        (existing.length + 1) 1 ⟨k0, h01, by omega, h03⟩
    refine ⟨k, hk1, ?_, ?_, fun j hj1 hj2 => hk4 j hj1 hj2⟩
    · simpa [generateUniqueSlug] using hk2
    · have hres : generateUniqueSlug value existing fb =
          slugCandidate (slugify value (fb.getD "slug")) k := by
        simpa [generateUniqueSlug] using hk2
      rw [hres]
      exact hk3
  · decide

/-- Witness for the C8 theorem at the example input. -/
theorem generateUniqueSlug_spec_witness :
    generateUniqueSlug "my-post" ["my-post", "my-post-2"] none ∉
      ["my-post", "my-post-2"] := by
  obtain ⟨k, -, -, hnot, -⟩ :=
    generateUniqueSlug_spec.1 "my-post" ["my-post", "my-post-2"] none
  exact hnot

/-! ### Supporting lemmas: the slug pipeline -/

theorem isLowerAlnum_ne_hyphen (c : Char) (h : isLowerAlnum c = true) :
    c ≠ '-' := by
  intro e
  subst e
  exact absurd h (by decide)

theorem replaceRunsGo_chars :
    ∀ (l : List Char) (flag : Bool) (c : Char), c ∈ replaceRunsGo flag l →
      isLowerAlnum c = true ∨ c = '-' := by
  intro l
  induction l with
  | nil =>
      intro flag c hc
      simp [replaceRunsGo] at hc
  | cons a t ih =>
      intro flag c hc
      by_cases ha : isLowerAlnum a
      · rw [replaceRunsGo, if_pos ha] at hc
        rcases List.mem_cons.mp hc with rfl | hc2
        · exact Or.inl ha
        · exact ih false c hc2
      · cases flag with
        | true =>
            rw [replaceRunsGo, if_neg ha, if_pos rfl] at hc
            exact ih true c hc
        | false =>
            rw [replaceRunsGo, if_neg ha, if_neg (by simp)] at hc
            rcases List.mem_cons.mp hc with rfl | hc2
            · exact Or.inr rfl
            · exact ih true c hc2

/-- After run replacement there are never two adjacent hyphens, and in the
inside-a-run state the next emitted character is alphanumeric. -/
theorem replaceRunsGo_inv (l : List Char) :
    (NoDoubleHyphen (replaceRunsGo false l) ∧
      NoDoubleHyphen (replaceRunsGo true l)) ∧
    ∀ c, (replaceRunsGo true l).head? = some c → isLowerAlnum c = true := by
  induction l with
  | nil =>
      refine ⟨⟨?_, ?_⟩, ?_⟩
      · simp [replaceRunsGo, NoDoubleHyphen]
      · simp [replaceRunsGo, NoDoubleHyphen]
      · intro c hc
        simp [replaceRunsGo] at hc
  | cons a t ih =>
      obtain ⟨⟨ihf, iht⟩, ihh⟩ := ih
      by_cases ha : isLowerAlnum a
      · have key : NoDoubleHyphen (a :: replaceRunsGo false t) := by
          rw [NoDoubleHyphen, List.chain'_cons']
          refine ⟨?_, ihf⟩
          intro y _
          rintro ⟨ea, _⟩
          exact isLowerAlnum_ne_hyphen a ha ea
        refine ⟨⟨?_, ?_⟩, ?_⟩
        · rw [replaceRunsGo, if_pos ha]
          exact key
        · rw [replaceRunsGo, if_pos ha]
          exact key
        · intro c hc
          rw [replaceRunsGo, if_pos ha] at hc
          simp only [List.head?_cons, Option.some.injEq] at hc
          rw [← hc]
          exact ha
      · have hfalse : NoDoubleHyphen ('-' :: replaceRunsGo true t) := by
          rw [NoDoubleHyphen, List.chain'_cons']
          refine ⟨?_, iht⟩
          intro y hy
          rintro ⟨-, ey⟩
          exact isLowerAlnum_ne_hyphen y (ihh y (by simpa using hy)) ey
        refine ⟨⟨?_, ?_⟩, ?_⟩
        · rw [replaceRunsGo, if_neg ha, if_neg (by simp)]
          exact hfalse
        · rw [replaceRunsGo, if_neg ha, if_pos rfl]
          exact iht
        · intro c hc
          rw [replaceRunsGo, if_neg ha, if_pos rfl] at hc
          exact ihh c hc

theorem chain'_dropWhile {R : Char → Char → Prop} (p : Char → Bool) :
    ∀ (l : List Char), List.Chain' R l → List.Chain' R (l.dropWhile p) := by
  intro l
  induction l with
  | nil => intro h; exact h
  | cons a t ih =>
      intro h
      rw [List.dropWhile_cons]
      split
      · exact ih h.tail
      · exact h

theorem noDoubleHyphen_reverse (l : List Char) (h : NoDoubleHyphen l) :
    NoDoubleHyphen l.reverse := by
  rw [NoDoubleHyphen, List.chain'_reverse]
  exact h.imp (fun a b hab => fun hfl => hab ⟨hfl.2, hfl.1⟩)

theorem stripEdgeHyphens_subset (X : List Char) :
    ∀ c ∈ stripEdgeHyphens X, c ∈ X := by
  intro c hc
  unfold stripEdgeHyphens at hc
  rw [List.mem_reverse] at hc
  have h1 := List.dropWhile_subset _ hc
  rw [List.mem_reverse] at h1
  exact List.dropWhile_subset _ h1

theorem stripEdgeHyphens_chain (X : List Char) (h : NoDoubleHyphen X) :
    NoDoubleHyphen (stripEdgeHyphens X) := by
  unfold stripEdgeHyphens
  exact noDoubleHyphen_reverse _
    (chain'_dropWhile _ _ (noDoubleHyphen_reverse _ (chain'_dropWhile _ _ h)))

theorem stripEdgeHyphens_head (X : List Char) (c : Char)
    (h : (stripEdgeHyphens X).head? = some c) : c ≠ '-' := by
  unfold stripEdgeHyphens at h
  rw [List.head?_reverse] at h
  have hZne :
      (X.dropWhile (fun c => c = '-')).reverse.dropWhile
        (fun c => c = '-') ≠ [] := by
    intro e
    rw [e] at h
    simp at h
  rw [getLast?_dropWhile _ _ hZne, List.getLast?_reverse] at h
  have hfalse := head?_dropWhile_false (fun c => c = '-') X c h
  intro e
  rw [e] at hfalse
  simp at hfalse

theorem stripEdgeHyphens_last (X : List Char) (c : Char)
    (h : (stripEdgeHyphens X).getLast? = some c) : c ≠ '-' := by
  unfold stripEdgeHyphens at h
  rw [List.getLast?_reverse] at h
  have hfalse := head?_dropWhile_false (fun c => c = '-') _ c h
  intro e
  rw [e] at hfalse
  simp at hfalse

/-- Collapsing repeated hyphens is the identity on a list without adjacent
hyphens. -/
theorem collapseHyphensGo_noop :
    ∀ (l : List Char), NoDoubleHyphen l →
      collapseHyphensGo false l = l ∧
      ((∀ c, l.head? = some c → c ≠ '-') → collapseHyphensGo true l = l) := by
  intro l
  induction l with
  | nil => intro _; exact ⟨rfl, fun _ => rfl⟩
  | cons a t ih =>
      intro h
      obtain ⟨ihf, iht⟩ := ih h.tail
      by_cases ha : a = '-'
      · subst ha
        have hthead : ∀ c, t.head? = some c → c ≠ '-' := by
          intro c hc e
          subst e
          exact (List.chain'_cons'.mp h).1 '-' (by simpa using hc) ⟨rfl, rfl⟩
        constructor
        · rw [collapseHyphensGo, if_pos rfl, if_neg (by simp), iht hthead]
        · intro hh
          exact absurd rfl (hh '-' rfl)
      · constructor
        · rw [collapseHyphensGo, if_neg ha, ihf]
        · intro _
          rw [collapseHyphensGo, if_neg ha, ihf]

/-- The slug regex accepts every non-empty list of alphanumerics and
hyphens with no adjacent hyphens and alphanumeric endpoints. -/
theorem slugRegexAccepts_inv :
    ∀ (l : List Char), (∀ c ∈ l, isLowerAlnum c = true ∨ c = '-') →
      NoDoubleHyphen l → (∀ c, l.getLast? = some c → c ≠ '-') →
      slugRegexAccepts true l = true ∧
      (l ≠ [] → (∀ c, l.head? = some c → c ≠ '-') →
        slugRegexAccepts false l = true) := by
  intro l
  induction l with
  | nil =>
      intro _ _ _
      exact ⟨rfl, fun h _ => absurd rfl h⟩
  | cons a t ih =>
      intro hchars hchain hlast
      have htchars : ∀ c ∈ t, isLowerAlnum c = true ∨ c = '-' :=
        fun c hc => hchars c (List.mem_cons_of_mem a hc)
      have htlast : ∀ c, t.getLast? = some c → c ≠ '-' := by
        intro c hc
        rcases t with _ | ⟨b, tt⟩
        · simp at hc
        · exact hlast c (by rwa [List.getLast?_cons_cons])
      obtain ⟨ihT, ihF⟩ := ih htchars hchain.tail htlast
      by_cases ha : isLowerAlnum a
      · constructor
        · rw [slugRegexAccepts, if_pos ha]
          exact ihT
        · intro _ _
          rw [slugRegexAccepts, if_pos ha]
          exact ihT
      · have ha' : a = '-' :=
          (hchars a (List.mem_cons_self a t)).resolve_left (by simp [ha])
        subst ha'
        have htne : t ≠ [] := by
          intro e
          subst e
          exact hlast '-' rfl rfl
        have hthead : ∀ c, t.head? = some c → c ≠ '-' := by
          intro c hc e
          subst e
          exact (List.chain'_cons'.mp hchain).1 '-' (by simpa using hc)
            ⟨rfl, rfl⟩
        constructor
        · rw [slugRegexAccepts, if_neg ha, if_pos ⟨rfl, rfl⟩]
          exact ihF htne hthead
        · intro _ hh
          exact absurd rfl (hh '-' rfl)

/-- C9: slugify applies the normalization pipeline (decompose, strip marks,
lowercase, trim, hyphenate non-alphanumeric runs, strip edge hyphens,
collapse repeated hyphens) and substitutes the fallback exactly when the
normalized string is empty; on the three examples it yields
"cafe-restaurant", "slug" and "default". -/
theorem slugify_spec :
    slugify "Café & Restaurant" "slug" = "cafe-restaurant" ∧
    slugify "---" "slug" = "slug" ∧
    slugify "___" "default" = "default" ∧
    ∀ (s fb : String),
      ((slugNormalize s).asString = "" → slugify s fb = fb) ∧
      ((slugNormalize s).asString ≠ "" →
        slugify s fb = (slugNormalize s).asString) := by
  refine ⟨by decide, by decide, by decide, ?_⟩
  intro s fb
  constructor
  · intro h
    unfold slugify
    rw [h]
    simp
  · intro h
    unfold slugify
    have hne : slugNormalize s ≠ [] := by
      intro e
      exact h (by rw [e]; rfl)
    have hpos : ((slugNormalize s).asString).length > 0 :=
      List.length_pos.mpr hne
    rw [if_pos hpos]

/-- Witness for the C9 theorem: the fallback branch taken at "---", and the
normalization branch taken at "my-post". -/
theorem slugify_spec_witness :
    ((slugNormalize "---").asString = "" ∧ slugify "---" "x" = "x") ∧
    ((slugNormalize "my-post").asString ≠ "" ∧
      slugify "my-post" "x" = (slugNormalize "my-post").asString) :=
  ⟨⟨by decide, (slugify_spec.2.2.2 "---" "x").1 (by decide)⟩,
    ⟨by decide, (slugify_spec.2.2.2 "my-post" "x").2 (by decide)⟩⟩

/-- C10: the output of slugify with the default fallback always matches the
anchored slug regex: isValidSlug accepts it and slugSchema validates it. -/
theorem slugify_always_valid (s : String) :
    isValidSlug (slugify s "slug") = true ∧
    slugSchemaParse (slugify s "slug") = .ok (slugify s "slug") := by
  have main : isValidSlug (slugify s "slug") = true := by
    unfold slugify
    by_cases h : ((slugNormalize s).asString).length > 0
    · rw [if_pos h]
      unfold isValidSlug
      have hdata : ((slugNormalize s).asString).data = slugNormalize s := rfl
      rw [hdata]
      have hne : slugNormalize s ≠ [] := by
        intro e
        rw [show ((slugNormalize s).asString).length =
          (slugNormalize s).length from rfl, e] at h
        simp at h
      set T := jsTrimCore
        (((s.data.flatMap nfdChar).filter
          (fun c => ¬ isCombiningMark c)).map Char.toLower) with hT
      have hXchain : NoDoubleHyphen (replaceRuns T) :=
        (replaceRunsGo_inv T).1.1
      have hXchars : ∀ c ∈ replaceRuns T, isLowerAlnum c = true ∨ c = '-' :=
        fun c hc => replaceRunsGo_chars T false c hc
      have hSchain : NoDoubleHyphen (stripEdgeHyphens (replaceRuns T)) :=
        stripEdgeHyphens_chain _ hXchain
      have hShead : ∀ c,
          (stripEdgeHyphens (replaceRuns T)).head? = some c → c ≠ '-' :=
        fun c hc => stripEdgeHyphens_head _ c hc
      have hSlast : ∀ c,
          (stripEdgeHyphens (replaceRuns T)).getLast? = some c → c ≠ '-' :=
        fun c hc => stripEdgeHyphens_last _ c hc
      have hSchars : ∀ c ∈ stripEdgeHyphens (replaceRuns T),
          isLowerAlnum c = true ∨ c = '-' :=
        fun c hc => hXchars c (stripEdgeHyphens_subset _ c hc)
      have hC : slugNormalize s = stripEdgeHyphens (replaceRuns T) := by
        show collapseHyphens (stripEdgeHyphens (replaceRuns T)) = _
        exact (collapseHyphensGo_noop _ hSchain).1
      rw [hC]
      have hSne : stripEdgeHyphens (replaceRuns T) ≠ [] := by
        rw [← hC]
        exact hne
      exact (slugRegexAccepts_inv _ hSchars hSchain hSlast).2 hSne hShead
    · rw [if_neg h]
      decide
  refine ⟨main, ?_⟩
  unfold slugSchemaParse
  have main2 : slugRegexAccepts false (slugify s "slug").data = true := main
  rw [if_pos main2]

/-- Witness for the C5 theorem at page 2, limit 10, total 45. -/
theorem calculatePaginationMeta_spec_witness :
    (1 ≤ 2 ∧ 1 ≤ 10) ∧
    (((calculatePaginationMeta ⟨2, 10⟩ 45).totalPages : ℤ) =
      ⌈(45 : ℚ) / (10 : ℚ)⌉) :=
  ⟨by decide,
    by exact_mod_cast
      (calculatePaginationMeta_spec 2 10 45 (by decide) (by decide)).2.2.2.1⟩

end ApiCore
